import Mathlib

/-!
# Verification of the usync routing-and-reconciliation pipeline

A shallow embedding of the usync sources (`src/main.rs`, `src/parser.rs`,
`src/sorter.rs`, `src/updater.rs`, `src/wp.rs`) in Lean 4, with theorems
settling the specification's claims about them.

Modelling conventions:
* Rust `&str`/`String` values are modelled as `List Char` (ASCII content, so
  Rust byte indices coincide with character indices).
* Fallible I/O (wiki fetch, repository fetch, token acquisition) is modelled
  by `Option`-valued oracles supplied as explicit arguments.
* `serde_json::from_str::<Config>` (an external library call) is modelled by
  an explicit function argument `Str → Option Config`; theorems quantify over
  it, and concrete instances used in counterexamples spell out the exact JSON
  strings they stand for.
* Rust panics (`unreachable!()`, slice-out-of-range) surface as explicit
  `Option`/outcome constructors, never as silent truncation.
-/

/-- Rust `&str` modelled as a list of characters (ASCII contents). -/
abbrev Str := List Char

/-- Convenience coercion from Lean string literals to the model type. -/
def str (s : String) : Str := s.toList

/-- Rust `char::is_whitespace`, restricted to the ASCII whitespace characters
that occur in the strings this program manipulates. -/
def isWs (c : Char) : Bool :=
  c = ' ' || c = '\t' || c = '\n' || c = '\r' || c = '\x0b' || c = '\x0c'

/-- Rust `str::trim_start`. -/
def rustTrimStart (s : Str) : Str := s.dropWhile isWs

/-- Rust `str::trim_end`. -/
def rustTrimEnd (s : Str) : Str := (s.reverse.dropWhile isWs).reverse

/-- Rust `str::trim`. -/
def rustTrim (s : Str) : Str := rustTrimEnd (rustTrimStart s)

/-- Rust `str::strip_prefix`. -/
def stripPfx (p s : Str) : Option Str :=
  if p.isPrefixOf s then some (s.drop p.length) else none

/-- Rust `str::strip_suffix`. -/
def stripSfx (p s : Str) : Option Str :=
  if p.isSuffixOf s then some (s.take (s.length - p.length)) else none

/-- Rust `str::split(sep)` for a character separator: the list of fragments
between occurrences of `sep` (always non-empty, fragments may be empty). -/
def splitOnChar (sep : Char) : Str → List Str
  | [] => [[]]
  | c :: rest =>
    match splitOnChar sep rest with
    | [] => [[]]
    | f :: fs => if c = sep then [] :: f :: fs else (c :: f) :: fs

/-- Rust `str::split_once(sep)` for a character separator: the parts before
and after the first occurrence of `sep`, or `none` when `sep` is absent. -/
def splitOnce (sep : Char) : Str → Option (Str × Str)
  | [] => none
  | c :: rest =>
    if c = sep then some ([], rest)
    else (splitOnce sep rest).map fun pr => (c :: pr.1, pr.2)

/-- Rust `str::lines().next()`: the first line (`\n`-terminated, a trailing
`\r` stripped), or `none` on the empty string. -/
def firstLine (s : Str) : Option Str :=
  match s with
  | [] => none
  | _ =>
    let l := s.takeWhile (· ≠ '\n')
    some (if l.getLast? = some '\r' then l.dropLast else l)

/-- Splitting at every character satisfying `p` (fragments may be empty). -/
def splitOnPred (p : Char → Bool) : Str → List Str
  | [] => [[]]
  | c :: rest =>
    match splitOnPred p rest with
    | [] => [[]]
    | f :: fs => if p c then [] :: f :: fs else (c :: f) :: fs

/-- Rust `str::split_whitespace`: maximal runs of non-whitespace characters. -/
def words (s : Str) : List Str :=
  (splitOnPred isWs s).filter (fun w => w ≠ [])

/-- Fuel-driven worker for `replaceAll`; the fuel bounds the scan position and
never runs out when it starts at the string's length. -/
def replaceAllGo (pat rep : Str) : Nat → Str → Str
  | 0, s => s
  | _ + 1, [] => []
  | fuel + 1, c :: rest =>
    if pat ≠ [] ∧ pat.isPrefixOf (c :: rest) then
      rep ++ replaceAllGo pat rep fuel ((c :: rest).drop pat.length)
    else c :: replaceAllGo pat rep fuel rest

/-- Rust `str::replace(pat, rep)` replacing every occurrence of the non-empty
pattern `pat` by `rep` (the program only ever replaces `"{+path}"`). -/
def replaceAll (pat rep s : Str) : Str := replaceAllGo pat rep s.length s

/-- Rust `str::find(c)`: index of the first occurrence of `c`. -/
def findIdxOf (c : Char) : Str → Option Nat
  | [] => none
  | x :: rest =>
    if x = c then some 0 else (findIdxOf c rest).map (· + 1)

/-- Rust `str::rfind(c)`: index of the last occurrence of `c`. -/
def rfindIdxOf (c : Char) (s : Str) : Option Nat :=
  (findIdxOf c s.reverse).map fun i => s.length - 1 - i

/-- Rust `[a..=b]` slicing (both endpoints in range, `a ≤ b + 1`). -/
def sliceIncl (a b : Nat) (s : Str) : Str := (s.drop a).take (b + 1 - a)

/-- Rust `[T]::join(sep)` on string slices. -/
def joinSep (sep : Str) : List Str → Str
  | [] => []
  | [x] => x
  | x :: y :: rest => x ++ sep ++ joinSep sep (y :: rest)

/-- Decimal rendering of a `usize`, as Rust's `Display` formats it. -/
def natStr (n : Nat) : Str := (Nat.repr n).toList

/-- `HashSet::insert` modelled on a duplicate-free list: appends the element
when absent (iteration order of the Rust `HashSet` is unspecified; the model
fixes first-insertion order, which no claim's property depends on). -/
def insertSet (l : List Str) (x : Str) : List Str :=
  if x ∈ l then l else l ++ [x]

/-! ## Data model (`src/main.rs`, `src/parser.rs`) -/

/-- `main.rs` `GitHubAuthor`. -/
structure GitHubAuthor where
  name : Str
deriving DecidableEq

/-- `main.rs` `GitHubCommit`. -/
structure GitHubCommit where
  author : GitHubAuthor
  committer : GitHubAuthor
  message : Str
  added : List Str
  modified : List Str
deriving DecidableEq

/-- `main.rs` `Repository`. `html_url` is declared in `main.rs`;
`contents_url` is the GitHub contents-URL template field that both
reconcilers read (`push.repository.contents_url`), carrying the literal
`"{+path}"` placeholder. -/
structure Repository where
  html_url : Str
  contents_url : Str
deriving DecidableEq

/-- `main.rs` `GitHubPush`. The `retry` flag is the single-bit requeue guard
read and set by `updater.rs`'s dispatch loop (`push.retry`); it defaults to
`false` at ingestion. -/
structure GitHubPush where
  compare : Str
  commits : List GitHubCommit
  pusher : GitHubAuthor
  ref_ : Str
  repository : Repository
  retry : Bool
deriving DecidableEq

/-- `main.rs` `Commits`. -/
inductive Commits where
  | Single (message : Str)
  | Multiple (n : Nat)
deriving DecidableEq

/-- `main.rs` `Push`. -/
structure Push where
  commits : Commits
  authors : List Str
  url : Str
deriving DecidableEq

/-- `main.rs` `Push::into_edit_summary`. The `[] => unreachable!()` arm is a
panic, modelled as `none`. -/
def into_edit_summary (p : Push) : Option Str :=
  match p.authors with
  | [] => none
  | a :: rest =>
    let author :=
      if (a :: rest).length ≤ 3 then joinSep (str ", ") (a :: rest)
      else a ++ str " and " ++ natStr rest.length ++ str " others"
    let commit :=
      match p.commits with
      | .Single msg => msg
      | .Multiple n => natStr n ++ str " commits"
    some (author ++ str ": " ++ commit ++ str " (" ++ p.url ++ str ")")

/-- The name-collection loop of `parse_webhook`: for each commit insert the
author's then the committer's name into the `HashSet`. -/
def collectNames (ns : List Str) (cs : List GitHubCommit) : List Str :=
  cs.foldl (fun ns c => insertSet (insertSet ns c.author.name) c.committer.name) ns

/-- `parse_webhook`, identical in `sorter.rs` and `updater.rs`: collapses the
commits to either the single message or a count, and deduplicates the
author/committer names through a `HashSet`. -/
def parse_webhook (p : GitHubPush) : Push :=
  let commits :=
    match p.commits with
    | [c] => Commits.Single c.message
    | cs => Commits.Multiple cs.length
  { commits := commits, authors := collectNames [] p.commits, url := p.compare }

/-- `parser.rs` `SyncSource`: the routing key. -/
structure SyncSource where
  repo : Str
  ref_ : Str
deriving DecidableEq

/-- `parser.rs` `Sync`: one declared sync inside a page's JSON config. -/
structure Sync where
  source : SyncSource
  target_title : Str
deriving DecidableEq

/-- `parser.rs` `Config`: the JSON config embedded in a declaring page. -/
structure Config where
  syncs : List Sync
deriving DecidableEq

/-- `parser.rs` `PageInfo`: one enumerated page. -/
structure PageInfo where
  title : Str
  contentmodel : Str
  content : Str
deriving DecidableEq

/-- The shared routing table `HashMap<SyncSource, String>` of
`main.rs::SharedState`, modelled as a key-unique association list. -/
abbrev RMap := List (SyncSource × Str)

/-- `HashMap::insert`: replaces the value at an existing key, else appends. -/
def insertR (m : RMap) (k : SyncSource) (v : Str) : RMap :=
  match m with
  | [] => [(k, v)]
  | (k', v') :: rest => if k' = k then (k, v) :: rest else (k', v') :: insertR rest k v

/-- `HashMap::get` as both dispatch loops use it (cloned out of the mutex). -/
def lookupR (m : RMap) (k : SyncSource) : Option Str :=
  match m with
  | [] => none
  | (k', v) :: rest => if k' = k then some v else lookupR rest k

/-- The discovery task's table replacement `*ctx.ss.map.lock().unwrap() = res`:
wholesale assignment of the freshly built map. -/
def replaceTable (_old new : RMap) : RMap := new

/-! ## Reconciler outcome and environment (shared by both reconcilers) -/

/-- Observable outcome of one `sort` invocation: `edited` records that an edit
POST was issued (with its title, new text and summary), `noop` that the
invocation stopped silently, `panicked` that a Rust panic was reached. -/
inductive SortResult where
  | noop
  | edited (title text summary : Str)
  | panicked
deriving DecidableEq

/-- Whether the outcome is an issued edit call. -/
def SortResult.isEdit : SortResult → Bool
  | .edited _ _ _ => true
  | _ => false

/-- The I/O a `sort` invocation can observe: the wiki fetch of the target page
(`wp::fetch`, `none` = failure), the repository raw-content response text
(`none` = either the request or its body read failed), and the csrf token
(`none` = token acquisition failed). -/
structure SortEnv where
  wiki : Option Str
  repoText : Option Str
  token : Option Str
deriving DecidableEq

namespace Updater

/-- `updater.rs` `Header`. -/
structure Header where
  repo : Str
  ref_ : Str
  path : Str
deriving DecidableEq

/-- The fragment-accumulation state of `parse_js_header`'s `for` loop:
`(repo, ref_, path)` as assigned so far. -/
abbrev FragAcc := Option Str × Option Str × Option Str

/-- One iteration of `updater.rs::parse_js_header`'s fragment loop:
`split_once('=')`, trim the key, and assign the trimmed value to the matching
field (unknown keys fall through, keeping the accumulator). -/
def applyFrag (acc : FragAcc) (frag : Str) : FragAcc :=
  match splitOnce '=' frag with
  | none => acc
  | some (p, a) =>
    let key := rustTrim p
    if key = str "repo" then (some (rustTrim a), acc.2.1, acc.2.2)
    else if key = str "ref" then (acc.1, some (rustTrim a), acc.2.2)
    else if key = str "path" then (acc.1, acc.2.1, some (rustTrim a))
    else acc

/-- The marker-stripping prefix of `updater.rs::parse_js_header`: first line,
trim, strip `"//"`, trim the start, strip `"{{Wikipedia:USync"`, strip the
trailing `"}}"`, trim, split on `'|'` and trim each fragment. -/
def extractFrags (s : Str) : Option (List Str) :=
  (firstLine s).bind fun l =>
  (stripPfx (str "//") (rustTrim l)).bind fun r1 =>
  (stripPfx (str "\x7b\x7bWikipedia:USync") (rustTrimStart r1)).bind fun r2 =>
  (stripSfx (str "\x7d\x7d") r2).map fun r3 =>
  (splitOnChar '|' (rustTrim r3)).map rustTrim

/-- The fragment loop of `updater.rs::parse_js_header` followed by the final
`Some(Header { repo: repo?, ref_: ref_?, path: path? })`. -/
def parseFrags (frags : List Str) : Option Header :=
  match frags.foldl applyFrag (none, none, none) with
  | (some repo, some ref_, some path) => some ⟨repo, ref_, path⟩
  | _ => none

/-- `updater.rs::parse_js_header`. -/
def parse_js_header (s : Str) : Option Header :=
  (extractFrags s).bind parseFrags

/-- `updater.rs::sort` as a function of its observable I/O: the chain of
early-`return` checks, ending in an edit POST or a silent stop. -/
def sort (env : SortEnv) (push : GitHubPush) (title : Str) : SortResult :=
  match env.wiki with
  | none => .noop
  | some orig_src =>
  match parse_js_header orig_src with
  | none => .noop
  | some header =>
  if push.ref_ ≠ header.ref_ ∨ push.repository.html_url ≠ header.repo then .noop
  else
  let commits := push.commits.filter fun c =>
    c.added.contains header.path || c.modified.contains header.path
  if _hc : commits = [] then .noop
  else
  match stripPfx (str "https://github.com/") header.repo with
  | none => .noop
  | some repo0 =>
  let repo1 := (stripSfx (str "/") repo0).getD repo0
  let file_url := str "https://api.github.com/repos/" ++ repo1 ++ str "/contents/" ++ header.path
  let file_url2 := replaceAll (str "\x7b+path\x7d") header.path push.repository.contents_url
  if file_url ≠ file_url2 then .noop
  else
  match env.repoText with
  | none => .noop
  | some newtext =>
  if newtext = orig_src then .noop
  else if parse_js_header newtext ≠ some header then .noop
  else
  match into_edit_summary (parse_webhook { push with commits := commits }) with
  | none => .panicked
  | some summary =>
  match env.token with
  | none => .noop
  | some _tok => .edited title newtext summary

/-- The retry mutation `push.retry = true` of `updater.rs::task`. -/
def setRetry (p : GitHubPush) : GitHubPush := { p with retry := true }

/-- The events `updater.rs::task` re-submits through the ingestion channel when
a routing lookup misses: the event once more with `retry = true` when its
`retry` flag was still false, nothing otherwise. -/
def missResubmits (p : GitHubPush) : List GitHubPush :=
  if p.retry then [] else [setRetry p]

/-- What `updater.rs::task` does with one dequeued event: a routing-table hit
spawns the per-title reconcilers, a miss signals a refresh and re-submits
according to `missResubmits`. -/
inductive DispatchOutcome where
  | spawned (title : Str)
  | missed (resubmitted : List GitHubPush)
deriving DecidableEq

/-- One iteration of `updater.rs::task`'s dispatch loop over the routing
table snapshot it reads under the lock. -/
def dispatchStep (table : RMap) (p : GitHubPush) : DispatchOutcome :=
  match lookupR table ⟨p.repository.html_url, p.ref_⟩ with
  | some title => .spawned title
  | none => .missed (missResubmits p)

end Updater

namespace Sorter

/-- `sorter.rs` `Header`. -/
structure Header where
  repo : Str
  ref_ : Str
  file : Str
deriving DecidableEq

/-- `sorter.rs::parse_js_header`: strip the
`"// [[User:0xDeadbeef/usync]]:"` marker, take the first line, trim, split on
whitespace, and require exactly three fields. -/
def parse_js_header (s : Str) : Option Header :=
  (stripPfx (str "// [[User:0xDeadbeef/usync]]:") s).bind fun r =>
  (firstLine r).bind fun l =>
  match words (rustTrim l) with
  | [repo, ref_, file] => some ⟨repo, ref_, file⟩
  | _ => none

/-- `sorter.rs::sort` as a function of its observable I/O. -/
def sort (env : SortEnv) (push : GitHubPush) (title : Str) : SortResult :=
  match env.wiki with
  | none => .noop
  | some orig_src =>
  match parse_js_header orig_src with
  | none => .noop
  | some header =>
  if push.ref_ ≠ header.ref_ ∨ push.repository.html_url ≠ header.repo then .noop
  else
  let commits := push.commits.filter fun c =>
    c.added.contains header.file || c.modified.contains header.file
  if _hc : commits = [] then .noop
  else
  let _file_url := replaceAll (str "\x7b+path\x7d") header.file push.repository.contents_url
  match env.repoText with
  | none => .noop
  | some newtext =>
  if newtext = orig_src then .noop
  else if parse_js_header newtext ≠ some header then .noop
  else
  match into_edit_summary (parse_webhook { push with commits := commits }) with
  | none => .panicked
  | some summary =>
  match env.token with
  | none => .noop
  | some _tok => .edited title newtext summary

/-- The refresh-signal plus drop that `sorter.rs::task` performs on a routing
miss: it never re-submits the event (contrast `Updater.missResubmits`). -/
def missResubmits (_p : GitHubPush) : List GitHubPush := []

/-- One iteration of `sorter.rs::task`'s dispatch loop. -/
def dispatchStep (table : RMap) (p : GitHubPush) : Updater.DispatchOutcome :=
  match lookupR table ⟨p.repository.html_url, p.ref_⟩ with
  | some title => .spawned title
  | none => .missed (missResubmits p)

end Sorter

/-! ## Discovery (`src/parser.rs`) -/

/-- Outcome of `parser.rs::search`'s JSON extraction on one page's content:
`find('\x7b')` or `rfind('\x7d')` missing makes the loop `continue` (`skip`);
an in-range pair yields the inclusive slice (`ok`); a last `'\x7d'` lying more
than one position before the first `'\x7b'` makes the Rust slice
`content[json_start..=json_end]` panic (`panicked`). -/
inductive ExtractResult where
  | skip
  | panicked
  | ok (json : Str)
deriving DecidableEq

/-- The `find('\x7b')` / `rfind('\x7d')` / slice steps of `parser.rs::search`. -/
def extractJson (s : Str) : ExtractResult :=
  match findIdxOf '\x7b' s with
  | none => .skip
  | some a =>
    match rfindIdxOf '\x7d' s with
    | none => .skip
    | some b => if a ≤ b + 1 then .ok (sliceIncl a b s) else .panicked

/-- The per-sync userspace check of `parser.rs::search`:
`sync.target_title.starts_with(usr) && target.as_bytes().get(usr.len()) == Some(&b'/')`. -/
def usrCheck (usr target : Str) : Bool :=
  usr.isPrefixOf target && (target.get? usr.length == some '/')

/-- What one enumerated page contributes to the routing table being built by
`parser.rs::search`: `some []` when any `continue` fires (title without `'/'`,
non-`javascript` content model, no JSON slice, failed deserialization, or a
declared target outside the page's userspace — the `continue 'outer`),
`some entries` when all checks pass, `none` when the slice panics. -/
def processPage (fromJsonConfig : Str → Option Config) (p : PageInfo) :
    Option (List (SyncSource × Str)) :=
  match splitOnce '/' p.title with
  | none => some []
  | some (usr, _) =>
    if p.contentmodel ≠ str "javascript" then some []
    else
      match extractJson p.content with
      | .skip => some []
      | .panicked => none
      | .ok json =>
        match fromJsonConfig json with
        | none => some []
        | some cfg =>
          if cfg.syncs.all (fun sy => usrCheck usr sy.target_title) then
            some (cfg.syncs.map fun sy => (sy.source, sy.target_title))
          else some []

/-- Outcome of one full `parser.rs::search` call: the freshly built table, an
enumeration error propagated by `let item = item?`, or a panic. -/
inductive SearchOutcome where
  | ok (m : RMap)
  | failed
  | panicked
deriving DecidableEq

/-- The `while let` loop of `parser.rs::search` over the page stream:
`acc` is the `syncs` map under construction; a stream error aborts the whole
call, discarding `acc`. -/
def searchGo (fromJsonConfig : Str → Option Config) (acc : RMap) :
    List (Except Unit PageInfo) → SearchOutcome
  | [] => .ok acc
  | .error _ :: _ => .failed
  | .ok p :: rest =>
    match processPage fromJsonConfig p with
    | none => .panicked
    | some es => searchGo fromJsonConfig (es.foldl (fun m e => insertR m e.1 e.2) acc) rest

/-- `parser.rs::search`, starting from the empty map. -/
def searchModel (fromJsonConfig : Str → Option Config)
    (items : List (Except Unit PageInfo)) : SearchOutcome :=
  searchGo fromJsonConfig [] items

/-- One refresh iteration of `parser.rs::task`:
`if let Ok(res) = search(..) { *map.lock().unwrap() = res; }` — the table is
replaced wholesale on success and left untouched otherwise (a panic unwinds
the task without writing). -/
def taskStep (fromJsonConfig : Str → Option Config) (table : RMap)
    (items : List (Except Unit PageInfo)) : RMap :=
  match searchModel fromJsonConfig items with
  | .ok res => replaceTable table res
  | .failed => table
  | .panicked => table

/-! ## Refresh-signal channel (`tokio::sync::mpsc`, capacity 10 in `main.rs`) -/

/-- Immediate outcome of a channel operation by the dispatcher: `sent` carries
the queue after an enqueue, `blocked` means the awaiting `send` suspends until
the discovery task frees a slot, `dropped` means a full-queue signal is
discarded while the caller proceeds (what `try_send` failure amounts to). -/
inductive SignalOutcome where
  | sent (q : List Unit)
  | blocked
  | dropped
deriving DecidableEq

/-- `tokio::sync::mpsc::Sender::send(..).await` against the queue state `q`:
enqueues while below capacity, otherwise suspends the caller. -/
def sendAwait (cap : Nat) (q : List Unit) : SignalOutcome :=
  if q.length < cap then .sent (q ++ [()]) else .blocked

/-- `tokio::sync::mpsc::Sender::try_send` with the failure discarded: the
drop-if-full discipline the specification prescribes for refresh signals. -/
def trySendDrop (cap : Nat) (q : List Unit) : SignalOutcome :=
  if q.length < cap then .sent (q ++ [()]) else .dropped

/-- The refresh signal both dispatch loops issue on a routing miss:
`cx.reparse_request.send(()).await.unwrap()` on the capacity-10 channel that
`main.rs` creates (`mpsc::channel(10)`). -/
def missSignal (q : List Unit) : SignalOutcome := sendAwait 10 q

/-! ## Spec-side definitions (from the specification's words, for comparison) -/

/-- The key-to-value reading of a single fragment: `split_once('=')`, trim the
key, and when it equals `key` return the trimmed value. -/
def assignOf (key frag : Str) : Option Str :=
  match splitOnce '=' frag with
  | none => none
  | some (p, a) => if rustTrim p = key then some (rustTrim a) else none

/-- Modelled from the spec: "the last occurrence of a duplicate key winning,
with field values whitespace-trimmed" — the value of the last
`key = value` fragment whose trimmed key equals `key`. -/
def specLastVal (key : Str) : List Str → Option Str
  | [] => none
  | frag :: rest => (specLastVal key rest) <|> assignOf key frag

/-- Modelled from the spec: "the first line is the exact bracketed marker
comment" — the first line, trimmed, is a `//` comment whose body (after
leading whitespace) starts with the exact marker `{{Wikipedia:USync` and whose
remainder closes with `}}`. -/
def specHasMarker (s : Str) : Bool :=
  match firstLine s with
  | none => false
  | some l =>
    let t := rustTrim l
    (str "//").isPrefixOf t &&
      (let r := rustTrimStart (t.drop (str "//").length)
       (str "\x7b\x7bWikipedia:USync").isPrefixOf r &&
         (str "\x7d\x7d").isSuffixOf (r.drop (str "\x7b\x7bWikipedia:USync").length))

/-! ## Concrete demonstration inputs -/

/-- A JSON sync-config document declaring source `(R, B)` with target
`User:A/t.js`. -/
def demoJsonA : Str :=
  str "\x7b\"syncs\": [\x7b\"source\": \x7b\"repo\": \"R\", \"ref\": \"B\"\x7d, \"target_title\": \"User:A/t.js\"\x7d]\x7d"

/-- A JSON sync-config document declaring source `(R, B)` with target
`User:B/t.js`. -/
def demoJsonB : Str :=
  str "\x7b\"syncs\": [\x7b\"source\": \x7b\"repo\": \"R\", \"ref\": \"B\"\x7d, \"target_title\": \"User:B/t.js\"\x7d]\x7d"

/-- The sync source `(repo = R, ref = B)` declared by both demo documents. -/
def demoSource : SyncSource := ⟨str "R", str "B"⟩

/-- The decoded form of `demoJsonA`. -/
def demoCfgA : Config := ⟨[⟨demoSource, str "User:A/t.js"⟩]⟩

/-- The decoded form of `demoJsonB`. -/
def demoCfgB : Config := ⟨[⟨demoSource, str "User:B/t.js"⟩]⟩

/-- A declaring page in user A's space carrying `demoJsonA`. -/
def demoPageA : PageInfo := ⟨str "User:A/sync.js", str "javascript", demoJsonA⟩

/-- A declaring page in user B's space carrying `demoJsonB`. -/
def demoPageB : PageInfo := ⟨str "User:B/sync.js", str "javascript", demoJsonB⟩

/-- Stands for `serde_json::from_str::<Config>` on the two concrete documents
above (both are plain JSON matching the `Config`/`Sync`/`SyncSource` serde
shapes, `ref` renamed; serde decodes them to exactly these values) and
rejects every other input. -/
def demoFromJson : Str → Option Config := fun j =>
  if j = demoJsonA then some demoCfgA else if j = demoJsonB then some demoCfgB else none

/-- A javascript page whose content is a decodable `sorter.rs` declaration
header (and contains no braces at all). -/
def demoHeaderPage : PageInfo :=
  ⟨str "User:C/x.js", str "javascript", str "// [[User:0xDeadbeef/usync]]: R B t.js"⟩

/-- A commit by author/committer `A` touching `t.js`. -/
def demoCommit : GitHubCommit :=
  { author := ⟨str "A"⟩, committer := ⟨str "A"⟩, message := str "m",
    added := [str "t.js"], modified := [] }

/-- A minimal push event (`retry` still false). -/
def demoPush : GitHubPush :=
  { compare := str "u", commits := [demoCommit], pusher := ⟨str "A"⟩,
    ref_ := str "B", repository := { html_url := str "R", contents_url := str "T" },
    retry := false }

/-- A commit whose author and committer are both named `n`, touching nothing. -/
def mkC (n : String) : GitHubCommit :=
  { author := ⟨str n⟩, committer := ⟨str n⟩, message := str "m",
    added := [], modified := [] }

/-- A push with five commits by the four distinct names A, B, C, D. -/
def demoPush4 : GitHubPush :=
  { compare := str "u", commits := [mkC "A", mkC "B", mkC "C", mkC "D", mkC "A"],
    pusher := ⟨str "A"⟩, ref_ := str "B",
    repository := { html_url := str "R", contents_url := str "T" }, retry := false }

/-- The `updater.rs` test fixture for its header codec. -/
def demoMarkerLine : Str :=
  str "// \x7b\x7bWikipedia:USync | repo = https://github.com/fee1-dead/usync |ref = refs/heads/main |path=test.js\x7d\x7d"

/-! ## Helper lemmas -/

theorem orElse_none_right (a : Option α) : (a <|> none) = a := by cases a <;> rfl

theorem orElse_assoc (a b c : Option α) : (a <|> (b <|> c)) = ((a <|> b) <|> c) := by
  cases a <;> rfl

/-- `applyFrag` assigns, field-wise, the fragment's reading of each key over
the accumulator. -/
theorem applyFrag_eq (acc : Updater.FragAcc) (frag : Str) :
    Updater.applyFrag acc frag =
      (assignOf (str "repo") frag <|> acc.1,
       assignOf (str "ref") frag <|> acc.2.1,
       assignOf (str "path") frag <|> acc.2.2) := by
  unfold Updater.applyFrag assignOf
  cases h : splitOnce '=' frag with
  | none => simp
  | some pa =>
    obtain ⟨p, a⟩ := pa
    simp only
    by_cases h1 : rustTrim p = str "repo"
    · rw [if_pos h1, h1]
      simp [show ¬(str "repo" = str "ref") from by decide,
        show ¬(str "repo" = str "path") from by decide]
    · rw [if_neg h1]
      by_cases h2 : rustTrim p = str "ref"
      · rw [if_pos h2, h2]
        simp [show ¬(str "ref" = str "repo") from by decide,
          show ¬(str "ref" = str "path") from by decide]
      · rw [if_neg h2]
        by_cases h3 : rustTrim p = str "path"
        · rw [if_pos h3, h3]
          simp [show ¬(str "path" = str "repo") from by decide,
            show ¬(str "path" = str "ref") from by decide]
        · rw [if_neg h3]
          simp [if_neg h1, if_neg h2, if_neg h3]

/-- The fragment `for` loop computes, field-wise, the last assignment of each
key, falling back on the initial accumulator. -/
theorem foldl_applyFrag (frags : List Str) (r b p : Option Str) :
    frags.foldl Updater.applyFrag (r, b, p) =
      (specLastVal (str "repo") frags <|> r,
       specLastVal (str "ref") frags <|> b,
       specLastVal (str "path") frags <|> p) := by
  induction frags generalizing r b p with
  | nil => simp [specLastVal]
  | cons f rest ih =>
    simp only [List.foldl_cons, applyFrag_eq, ih, specLastVal, orElse_assoc]

/-- `parseFrags` returns the header of last-assigned, trimmed values, and
`none` as soon as one of the three keys was never assigned. -/
theorem parseFrags_eq (frags : List Str) :
    Updater.parseFrags frags =
      match specLastVal (str "repo") frags, specLastVal (str "ref") frags,
          specLastVal (str "path") frags with
      | some repo, some ref_, some path => some ⟨repo, ref_, path⟩
      | _, _, _ => none := by
  unfold Updater.parseFrags
  rw [foldl_applyFrag]
  simp only [orElse_none_right]
  cases specLastVal (str "repo") frags <;> cases specLastVal (str "ref") frags <;>
    cases specLastVal (str "path") frags <;> rfl

theorem stripPfx_eq_some {p s r : Str} :
    stripPfx p s = some r ↔ p.isPrefixOf s ∧ r = s.drop p.length := by
  unfold stripPfx
  split <;> simp_all [List.isPrefixOf_iff_prefix] <;> tauto

theorem stripPfx_isSome (p s : Str) : (stripPfx p s).isSome = p.isPrefixOf s := by
  unfold stripPfx
  cases h : List.isPrefixOf p s <;> simp [h]

theorem stripSfx_isSome (p s : Str) : (stripSfx p s).isSome = p.isSuffixOf s := by
  unfold stripSfx
  cases h : List.isSuffixOf p s <;> simp [h]

/-- The stripping chain of `parse_js_header` succeeds exactly on inputs whose
first line is the bracketed marker comment. -/
theorem extractFrags_isSome (s : Str) :
    (Updater.extractFrags s).isSome = specHasMarker s := by
  unfold Updater.extractFrags specHasMarker
  cases hf : firstLine s with
  | none => rfl
  | some l =>
    simp only [Option.some_bind]
    cases hp1 : List.isPrefixOf (str "//") (rustTrim l) with
    | false => simp [stripPfx, hp1]
    | true =>
      simp only [stripPfx, hp1, if_pos, Option.some_bind, Bool.true_and]
      cases hp2 : List.isPrefixOf (str "\x7b\x7bWikipedia:USync")
          (rustTrimStart ((rustTrim l).drop (str "//").length)) with
      | false => simp [stripPfx, hp2]
      | true =>
        simp only [stripPfx, hp2, if_pos, Option.some_bind, Bool.true_and]
        cases hs : List.isSuffixOf (str "\x7d\x7d")
            ((rustTrimStart ((rustTrim l).drop (str "//").length)).drop
              (str "\x7b\x7bWikipedia:USync").length) with
        | false => simp [stripSfx, hs]
        | true => simp [stripSfx, hs]

/-- The per-sync userspace check is exactly: the target begins with the
userspace segment followed by a `'/'`. -/
theorem usrCheck_iff (usr t : Str) : usrCheck usr t = true ↔ (usr ++ ['/']) <+: t := by
  induction usr generalizing t with
  | nil =>
    cases t with
    | nil => decide
    | cons b ts =>
      have hh : usrCheck [] (b :: ts) = (b == '/') := rfl
      rw [List.nil_append, hh]
      simp only [beq_iff_eq, List.cons_prefix_cons, List.nil_prefix, and_true]
      exact eq_comm
  | cons a us ih =>
    cases t with
    | nil =>
      have hh : usrCheck (a :: us) [] = false := rfl
      rw [hh]
      simp
    | cons b ts =>
      have hu : usrCheck (a :: us) (b :: ts) = (a == b && usrCheck us ts) := by
        show ((a == b && List.isPrefixOf us ts) && (ts.get? us.length == some '/')) = _
        rw [Bool.and_assoc]
        rfl
      rw [hu, List.cons_append, List.cons_prefix_cons, ← ih ts]
      simp [Bool.and_eq_true, beq_iff_eq]

/-- `HashMap` insert/get interaction. -/
theorem lookupR_insertR (m : RMap) (k : SyncSource) (v : Str) (k' : SyncSource) :
    lookupR (insertR m k v) k' = if k' = k then some v else lookupR m k' := by
  induction m with
  | nil =>
    by_cases h : k' = k
    · subst h; simp [insertR, lookupR]
    · have h' : ¬k = k' := fun hh => h hh.symm
      simp [insertR, lookupR, h, h']
  | cons kv rest ih =>
    obtain ⟨k0, v0⟩ := kv
    by_cases h0 : k0 = k
    · subst h0
      by_cases h : k' = k0
      · subst h; simp [insertR, lookupR]
      · have h' : ¬k0 = k' := fun hh => h hh.symm
        simp [insertR, lookupR, h, h']
    · by_cases h : k' = k0
      · subst h
        have h1 : ¬k' = k := fun hh => h0 (hh ▸ rfl)
        simp [insertR, lookupR, h0, h1]
      · have h' : ¬k0 = k' := fun hh => h hh.symm
        simp [insertR, lookupR, h0, h', h, ih]

/-- A key is absent from the table exactly when `lookup` misses it. -/
theorem lookupR_eq_none_iff (m : RMap) (k : SyncSource) :
    lookupR m k = none ↔ ∀ v, (k, v) ∉ m := by
  induction m with
  | nil => simp [lookupR]
  | cons kv rest ih =>
    obtain ⟨k0, v0⟩ := kv
    by_cases h : k0 = k
    · subst h
      constructor
      · intro hn
        simp [lookupR] at hn
      · intro hall
        exact absurd (List.mem_cons_self _ _) (hall v0)
    · simp only [lookupR, if_neg h, ih, List.mem_cons]
      constructor
      · intro hall v
        rintro (heq | hm)
        · exact h (by cases heq; rfl)
        · exact hall v hm
      · intro hall v hm
        exact hall v (Or.inr hm)

theorem insertSet_ne_nil (l : List Str) (x : Str) : insertSet l x ≠ [] := by
  unfold insertSet
  split
  · rename_i h
    intro hn
    subst hn
    cases h
  · simp

theorem mem_insertSet (l : List Str) (x y : Str) : y ∈ insertSet l x ↔ y ∈ l ∨ y = x := by
  unfold insertSet
  split
  · rename_i h
    constructor
    · exact Or.inl
    · rintro (hy | rfl) <;> assumption
  · simp

theorem insertSet_nodup (l : List Str) (x : Str) (h : l.Nodup) : (insertSet l x).Nodup := by
  unfold insertSet
  split
  · exact h
  · rename_i hx
    simpa [List.nodup_append] using ⟨h, fun hm => hx hm⟩

theorem collectNames_ne_nil (ns : List Str) (cs : List GitHubCommit)
    (h : ns ≠ [] ∨ cs ≠ []) : collectNames ns cs ≠ [] := by
  induction cs generalizing ns with
  | nil =>
    rcases h with h | h
    · exact h
    · exact absurd rfl h
  | cons c rest ih =>
    unfold collectNames
    simp only [List.foldl_cons]
    exact ih _ (Or.inl (insertSet_ne_nil _ _))

theorem collectNames_nodup (ns : List Str) (cs : List GitHubCommit)
    (h : ns.Nodup) : (collectNames ns cs).Nodup := by
  induction cs generalizing ns with
  | nil => exact h
  | cons c rest ih =>
    unfold collectNames
    simp only [List.foldl_cons]
    exact ih _ (insertSet_nodup _ _ (insertSet_nodup _ _ h))

theorem mem_collectNames (ns : List Str) (cs : List GitHubCommit) (x : Str) :
    x ∈ collectNames ns cs ↔
      x ∈ ns ∨ ∃ c ∈ cs, x = c.author.name ∨ x = c.committer.name := by
  induction cs generalizing ns with
  | nil => simp [collectNames]
  | cons c rest ih =>
    unfold collectNames
    simp only [List.foldl_cons]
    rw [show List.foldl (fun ns c => insertSet (insertSet ns c.author.name) c.committer.name)
        (insertSet (insertSet ns c.author.name) c.committer.name) rest =
      collectNames (insertSet (insertSet ns c.author.name) c.committer.name) rest from rfl]
    rw [ih]
    simp only [mem_insertSet, List.mem_cons]
    constructor
    · rintro (((h | h) | h) | ⟨c', hc', h⟩)
      · exact Or.inl h
      · exact Or.inr ⟨c, Or.inl rfl, Or.inl h⟩
      · exact Or.inr ⟨c, Or.inl rfl, Or.inr h⟩
      · exact Or.inr ⟨c', Or.inr hc', h⟩
    · rintro (h | ⟨c', hc', h⟩)
      · exact Or.inl (Or.inl (Or.inl h))
      · rcases hc' with rfl | hc'
        · rcases h with h | h
          · exact Or.inl (Or.inl (Or.inr h))
          · exact Or.inl (Or.inr h)
        · exact Or.inr ⟨c', hc', h⟩

/-- Inserting a batch of entries: a successful lookup afterwards comes from
the batch or from the base map. -/
theorem lookupR_foldl_insertR (es : List (SyncSource × Str)) (acc : RMap)
    (k : SyncSource) (t : Str)
    (h : lookupR (es.foldl (fun m e => insertR m e.1 e.2) acc) k = some t) :
    (k, t) ∈ es ∨ lookupR acc k = some t := by
  induction es generalizing acc with
  | nil => exact Or.inr h
  | cons e rest ih =>
    simp only [List.foldl_cons] at h
    rcases ih _ h with hm | hl
    · exact Or.inl (List.mem_cons_of_mem _ hm)
    · rw [lookupR_insertR] at hl
      split at hl
      · rename_i hk
        obtain ⟨e1, e2⟩ := e
        cases hl
        subst hk
        exact Or.inl (List.mem_cons_self _ _)
      · exact Or.inr hl

/-- Every binding of the table built by `searchGo` comes from the initial
accumulator or from one page's contribution. -/
theorem searchGo_ok_lookup (f : Str → Option Config)
    (items : List (Except Unit PageInfo)) (acc m : RMap)
    (hok : searchGo f acc items = .ok m) (k : SyncSource) (t : Str)
    (hl : lookupR m k = some t) :
    lookupR acc k = some t ∨
      ∃ p, Except.ok p ∈ items ∧ (k, t) ∈ (processPage f p).getD [] := by
  induction items generalizing acc with
  | nil =>
    cases hok
    exact Or.inl hl
  | cons it rest ih =>
    cases it with
    | error e => exact absurd hok (by simp [searchGo])
    | ok p =>
      simp only [searchGo] at hok
      cases hpp : processPage f p with
      | none => rw [hpp] at hok; exact absurd hok (by simp)
      | some es =>
        rw [hpp] at hok
        rcases ih _ hok with hacc | ⟨p', hp', hm⟩
        · rcases lookupR_foldl_insertR es acc k t hacc with hm | hbase
          · exact Or.inr ⟨p, List.mem_cons_self _ _, by simp [hpp, hm]⟩
          · exact Or.inl hbase
        · exact Or.inr ⟨p', List.mem_cons_of_mem _ hp', hm⟩

/-- Any entry a page contributes passes the userspace check against the
segment of the page's title before its first `'/'`. -/
theorem processPage_mem_usrCheck (f : Str → Option Config) (p : PageInfo)
    (k : SyncSource) (t : Str) (hm : (k, t) ∈ (processPage f p).getD []) :
    ∃ usr rest, splitOnce '/' p.title = some (usr, rest) ∧ usrCheck usr t = true := by
  unfold processPage at hm
  cases hsp : splitOnce '/' p.title with
  | none => rw [hsp] at hm; simp at hm
  | some ur =>
    obtain ⟨usr, rest⟩ := ur
    rw [hsp] at hm
    simp only at hm
    split at hm
    · simp at hm
    · cases hex : extractJson p.content with
      | skip => rw [hex] at hm; simp at hm
      | panicked => rw [hex] at hm; simp at hm
      | ok json =>
        rw [hex] at hm
        simp only at hm
        cases hcfg : f json with
        | none => rw [hcfg] at hm; simp at hm
        | some cfg =>
          rw [hcfg] at hm
          simp only at hm
          split at hm
          · rename_i hall
            simp only [Option.getD_some, List.mem_map] at hm
            obtain ⟨sy, hsy, heq⟩ := hm
            refine ⟨usr, rest, rfl, ?_⟩
            have := (List.all_eq_true.mp hall) sy hsy
            cases heq
            exact this
          · simp at hm

/-- A non-empty commit list always yields at least one collected name, so the
summary's `unreachable!()` arm cannot fire. -/
theorem summary_some (p : GitHubPush) (h : p.commits ≠ []) :
    into_edit_summary (parse_webhook p) ≠ none := by
  have hne : (parse_webhook p).authors ≠ [] := collectNames_ne_nil _ _ (Or.inr h)
  unfold into_edit_summary
  cases ha : (parse_webhook p).authors with
  | nil => exact absurd ha hne
  | cons a rest => simp

/-- `sorter.rs::sort` never reaches a panic. -/
theorem sorter_sort_ne_panicked (env : SortEnv) (push : GitHubPush) (title : Str) :
    Sorter.sort env push title ≠ .panicked := by
  intro h
  simp only [Sorter.sort] at h
  cases hw : env.wiki with
  | none => rw [hw] at h; cases h
  | some orig =>
    rw [hw] at h
    simp only at h
    cases hph : Sorter.parse_js_header orig with
    | none => rw [hph] at h; cases h
    | some header =>
      rw [hph] at h
      simp only at h
      split at h
      · cases h
      · split at h
        · cases h
        · rename_i hcne
          cases hrt : env.repoText with
          | none => rw [hrt] at h; cases h
          | some newt =>
            rw [hrt] at h
            simp only at h
            split at h
            · cases h
            · split at h
              · cases h
              · cases hsum : into_edit_summary (parse_webhook { push with
                    commits := push.commits.filter fun c =>
                      c.added.contains header.file || c.modified.contains header.file }) with
                | none => exact absurd hsum (summary_some _ hcne)
                | some summary =>
                  rw [hsum] at h
                  simp only at h
                  cases ht : env.token with
                  | none => rw [ht] at h; cases h
                  | some tok => rw [ht] at h; cases h

/-- `updater.rs::sort` never reaches a panic. -/
theorem updater_sort_ne_panicked (env : SortEnv) (push : GitHubPush) (title : Str) :
    Updater.sort env push title ≠ .panicked := by
  intro h
  simp only [Updater.sort] at h
  cases hw : env.wiki with
  | none => rw [hw] at h; cases h
  | some orig =>
    rw [hw] at h
    simp only at h
    cases hph : Updater.parse_js_header orig with
    | none => rw [hph] at h; cases h
    | some header =>
      rw [hph] at h
      simp only at h
      split at h
      · cases h
      · split at h
        · cases h
        · rename_i hcne
          cases hgh : stripPfx (str "https://github.com/") header.repo with
          | none => rw [hgh] at h; cases h
          | some repo0 =>
            rw [hgh] at h
            simp only at h
            split at h
            · cases h
            · cases hrt : env.repoText with
              | none => rw [hrt] at h; cases h
              | some newt =>
                rw [hrt] at h
                simp only at h
                split at h
                · cases h
                · split at h
                  · cases h
                  · cases hsum : into_edit_summary (parse_webhook { push with
                        commits := push.commits.filter fun c =>
                          c.added.contains header.path || c.modified.contains header.path }) with
                    | none => exact absurd hsum (summary_some _ hcne)
                    | some summary =>
                      rw [hsum] at h
                      simp only at h
                      cases ht : env.token with
                      | none => rw [ht] at h; cases h
                      | some tok => rw [ht] at h; cases h

/-- Inversion for `sorter.rs::sort`: an edit is issued only when both fetches
succeeded, the fetched text differs from the wiki text, and both texts decode
to the same header. -/
theorem sorter_sort_edit_inv (env : SortEnv) (push : GitHubPush) (title : Str)
    (h : (Sorter.sort env push title).isEdit = true) :
    ∃ orig newt header, env.wiki = some orig ∧ env.repoText = some newt ∧
      Sorter.parse_js_header orig = some header ∧ ¬(newt = orig) ∧
      Sorter.parse_js_header newt = some header := by
  simp only [Sorter.sort] at h
  cases hw : env.wiki with
  | none => rw [hw] at h; cases h
  | some orig =>
    rw [hw] at h
    simp only at h
    cases hph : Sorter.parse_js_header orig with
    | none => rw [hph] at h; cases h
    | some header =>
      rw [hph] at h
      simp only at h
      split at h
      · cases h
      · split at h
        · cases h
        · cases hrt : env.repoText with
          | none => rw [hrt] at h; cases h
          | some newt =>
            rw [hrt] at h
            simp only at h
            split at h
            · cases h
            · rename_i hne
              split at h
              · cases h
              · rename_i hsame
                refine ⟨orig, newt, header, rfl, rfl, hph, hne, ?_⟩
                by_contra hx
                exact hsame hx

/-- Inversion for `updater.rs::sort`, same shape as for `sorter.rs::sort`. -/
theorem updater_sort_edit_inv (env : SortEnv) (push : GitHubPush) (title : Str)
    (h : (Updater.sort env push title).isEdit = true) :
    ∃ orig newt header, env.wiki = some orig ∧ env.repoText = some newt ∧
      Updater.parse_js_header orig = some header ∧ ¬(newt = orig) ∧
      Updater.parse_js_header newt = some header := by
  simp only [Updater.sort] at h
  cases hw : env.wiki with
  | none => rw [hw] at h; cases h
  | some orig =>
    rw [hw] at h
    simp only at h
    cases hph : Updater.parse_js_header orig with
    | none => rw [hph] at h; cases h
    | some header =>
      rw [hph] at h
      simp only at h
      split at h
      · cases h
      · split at h
        · cases h
        · cases hgh : stripPfx (str "https://github.com/") header.repo with
          | none => rw [hgh] at h; cases h
          | some repo0 =>
            rw [hgh] at h
            simp only at h
            split at h
            · cases h
            · cases hrt : env.repoText with
              | none => rw [hrt] at h; cases h
              | some newt =>
                rw [hrt] at h
                simp only at h
                split at h
                · cases h
                · rename_i hne
                  split at h
                  · cases h
                  · rename_i hsame
                    refine ⟨orig, newt, header, rfl, rfl, hph, hne, ?_⟩
                    by_contra hx
                    exact hsame hx


/-! ## Claim theorems -/

/-- C1, counterexample: the routing table value type is a single title, not a
set of declaring titles. Pages A and B each successfully declare the same
SyncSource `(R, B)` (their individual contributions are shown), yet the table
built from both pages holds only the later page's target title: the earlier
declaration's title is evicted, so `lookup` cannot return "the full set of
declaring titles". -/
theorem c1_routing_set_counterexample :
    processPage demoFromJson demoPageA = some [(demoSource, str "User:A/t.js")] ∧
    processPage demoFromJson demoPageB = some [(demoSource, str "User:B/t.js")] ∧
    searchModel demoFromJson [.ok demoPageA, .ok demoPageB] =
      .ok [(demoSource, str "User:B/t.js")] ∧
    lookupR [(demoSource, str "User:B/t.js")] demoSource = some (str "User:B/t.js") ∧
    decide (str "User:A/t.js" = str "User:B/t.js") = false := by
  refine ⟨by decide, by decide, by decide, by decide, by decide⟩

/-- C1, amended: the Routing Table (`HashMap<SyncSource, String>`) associates
each SyncSource with a single wiki page title; a later declaration of the same
source replaces the earlier one. After `replace(M)`, `lookup(k)` returns M's
binding of `k` for every key in M, and nothing for every key not in M. -/
theorem c1_replace_lookup (old M : RMap) (k : SyncSource) :
    lookupR (replaceTable old M) k = lookupR M k ∧
    (lookupR (replaceTable old M) k = none ↔ ∀ v, (k, v) ∉ M) :=
  ⟨rfl, lookupR_eq_none_iff M k⟩

/-- C2: on a routing miss, `updater.rs::task` re-submits an event whose
`retry` flag is false exactly once, with the flag set; an event whose flag is
already true is dropped with no resubmission; and any re-submitted event
carries `retry = true`, so it can never be resubmitted again — no event is
dispatched a third time. -/
theorem c2_retry_once (table : RMap) (p : GitHubPush)
    (h : lookupR table ⟨p.repository.html_url, p.ref_⟩ = none) :
    (p.retry = false → Updater.dispatchStep table p =
      .missed [Updater.setRetry p]) ∧
    (p.retry = true → Updater.dispatchStep table p = .missed []) ∧
    (∀ q ∈ Updater.missResubmits p, Updater.missResubmits q = []) := by
  unfold Updater.dispatchStep
  rw [h]
  refine ⟨fun hr => ?_, fun hr => ?_, fun q hq => ?_⟩
  · simp [Updater.missResubmits, hr]
  · simp [Updater.missResubmits, hr]
  · unfold Updater.missResubmits at hq ⊢
    split at hq
    · simp at hq
    · simp only [List.mem_singleton] at hq
      subst hq
      simp [Updater.setRetry]

/-- C2, witness: a concrete miss (empty table) of a `retry = false` event is
re-submitted once with the flag set, and the re-submitted event resubmits
nothing. -/
theorem c2_retry_once_witness :
    Updater.dispatchStep [] demoPush = .missed [Updater.setRetry demoPush] ∧
    Updater.missResubmits (Updater.setRetry demoPush) = [] := by
  have h := c2_retry_once [] demoPush rfl
  exact ⟨h.1 rfl, h.2.2 _ (by decide)⟩

/-- C3, counterexample: the discovery cycle does not decode pages through the
Header Codec and does not insert the page's own title. Page A (whose content
is a JSON config, not decodable by either header codec) is entered with the
config's `target_title`, which differs from the page's own title; while a page
whose content IS a decodable declaration header (but no JSON braces)
contributes nothing. -/
theorem c3_config_not_codec_counterexample :
    demoPageA.title = str "User:A/sync.js" ∧
    searchModel demoFromJson [.ok demoPageA] = .ok [(demoSource, str "User:A/t.js")] ∧
    decide (str "User:A/t.js" = str "User:A/sync.js") = false ∧
    Updater.parse_js_header demoPageA.content = none ∧
    Sorter.parse_js_header demoPageA.content = none ∧
    Sorter.parse_js_header demoHeaderPage.content =
      some ⟨str "R", str "B", str "t.js"⟩ ∧
    processPage demoFromJson demoHeaderPage = some [] := by
  refine ⟨by decide, by decide, by decide, by decide, by decide, by decide, by decide⟩

/-- C3, amended: discovery extracts the substring between the first `'{'` and
the last `'}'` of each page's content and deserializes it as a JSON sync
config; for every page whose title contains `'/'`, whose content model is
`javascript`, whose config deserializes, and whose declared targets all pass
the userspace check, it adds each declared sync's `target_title` (not the
page's own title) to the entry for that sync's source; pages failing any of
these steps contribute nothing (silently) — except that content whose last
`'}'` lies more than one position before its first `'{'` panics the
enumeration instead of being excluded. -/
theorem c3_discovery_algorithm (f : Str → Option Config) (p : PageInfo)
    (usr rest j : Str) (cfg : Config) :
    (splitOnce '/' p.title = none → processPage f p = some []) ∧
    (p.contentmodel ≠ str "javascript" → processPage f p = some []) ∧
    (extractJson p.content = .skip → processPage f p = some []) ∧
    (extractJson p.content = .ok j → f j = none → processPage f p = some []) ∧
    (splitOnce '/' p.title = some (usr, rest) → p.contentmodel = str "javascript" →
      extractJson p.content = .ok j → f j = some cfg →
      (∀ sy ∈ cfg.syncs, usrCheck usr sy.target_title = true) →
      processPage f p = some (cfg.syncs.map fun sy => (sy.source, sy.target_title))) ∧
    (splitOnce '/' p.title = some (usr, rest) → p.contentmodel = str "javascript" →
      extractJson p.content = .panicked → processPage f p = none) := by
  refine ⟨fun h1 => ?_, fun h1 => ?_, fun h1 => ?_, fun h1 h2 => ?_,
    fun h1 h2 h3 h4 h5 => ?_, fun h1 h2 h3 => ?_⟩
  · unfold processPage
    rw [h1]
  · unfold processPage
    cases hsp : splitOnce '/' p.title with
    | none => rfl
    | some ur => simp [h1]
  · unfold processPage
    cases hsp : splitOnce '/' p.title with
    | none => rfl
    | some ur =>
      obtain ⟨u, r⟩ := ur
      by_cases hc : p.contentmodel = str "javascript"
      · simp only [hc]
        simp [h1]
      · simp [hc]
  · unfold processPage
    cases hsp : splitOnce '/' p.title with
    | none => rfl
    | some ur =>
      obtain ⟨u, r⟩ := ur
      by_cases hc : p.contentmodel = str "javascript"
      · simp only [hc]
        simp [h1, h2]
      · simp [hc]
  · unfold processPage
    rw [h1]
    simp only [h2, h3, h4]
    simp only [ne_eq, not_true_eq_false, if_false]
    rw [if_pos (List.all_eq_true.mpr fun sy hsy => h5 sy hsy)]
  · unfold processPage
    rw [h1]
    simp only [h2, h3]
    simp [h3]

/-- C3, witness for the amended algorithm: page A passes every check and
contributes exactly its declared target under its source. -/
theorem c3_discovery_algorithm_witness :
    processPage demoFromJson demoPageA =
      some (demoCfgA.syncs.map fun sy => (sy.source, sy.target_title)) := by
  have h := (c3_discovery_algorithm demoFromJson demoPageA (str "User:A")
    (str "sync.js") demoJsonA demoCfgA).2.2.2.2.1
  exact h (by decide) (by decide) (by decide) (by decide) (by decide)


/-- C4: the `updater.rs` Header Codec is total (a Lean function into
`Option`); on any input whose marker-stripping succeeds with fragment list
`frags`, it returns the header whose fields are the whitespace-trimmed values
of the last `repo`/`ref`/`path` assignments (unknown keys ignored, duplicate
keys last-wins), and `none` when any of the three keys was never assigned; on
any input missing the first-line bracketed marker it returns `none`. -/
theorem c4_header_decode (s : Str) (frags : List Str) :
    (Updater.extractFrags s = some frags →
      Updater.parse_js_header s =
        match specLastVal (str "repo") frags, specLastVal (str "ref") frags,
            specLastVal (str "path") frags with
        | some repo, some ref_, some path => some ⟨repo, ref_, path⟩
        | _, _, _ => none) ∧
    (specHasMarker s = false → Updater.parse_js_header s = none) := by
  constructor
  · intro he
    unfold Updater.parse_js_header
    rw [he]
    simp only [Option.some_bind]
    exact parseFrags_eq frags
  · intro hm
    unfold Updater.parse_js_header
    cases hx : Updater.extractFrags s with
    | none => rfl
    | some fr =>
      have hi := extractFrags_isSome s
      rw [hx, hm] at hi
      cases hi

/-- C4, witness: the codec decodes the source tree's own test fixture to the
trimmed triple, and returns `none` on marker-free content. -/
theorem c4_header_decode_witness :
    Updater.parse_js_header demoMarkerLine =
      some ⟨str "https://github.com/fee1-dead/usync", str "refs/heads/main", str "test.js"⟩ ∧
    Updater.parse_js_header (str "function f() \x7b\x7d") = none := by
  constructor
  · have h := (c4_header_decode demoMarkerLine
      ((Updater.extractFrags demoMarkerLine).getD [])).1 (by decide)
    rw [h]
    decide
  · exact (c4_header_decode (str "function f() \x7b\x7d") []).2 (by decide)

/-- C5: neither reconciler issues an edit when the fetched repository text is
byte-identical to the wiki text, nor when the header decoded from the fetched
text differs from the header decoded from the wiki text. -/
theorem c5_noop_conditions (envS envU : SortEnv) (push : GitHubPush)
    (title c orig newt : Str) :
    (envS.wiki = some c → envS.repoText = some c →
      (Sorter.sort envS push title).isEdit = false) ∧
    (envS.wiki = some orig → envS.repoText = some newt →
      Sorter.parse_js_header newt ≠ Sorter.parse_js_header orig →
      (Sorter.sort envS push title).isEdit = false) ∧
    (envU.wiki = some c → envU.repoText = some c →
      (Updater.sort envU push title).isEdit = false) ∧
    (envU.wiki = some orig → envU.repoText = some newt →
      Updater.parse_js_header newt ≠ Updater.parse_js_header orig →
      (Updater.sort envU push title).isEdit = false) := by
  refine ⟨fun h1 h2 => ?_, fun h1 h2 h3 => ?_, fun h1 h2 => ?_, fun h1 h2 h3 => ?_⟩
  · cases hE : (Sorter.sort envS push title).isEdit with
    | false => rfl
    | true =>
      obtain ⟨o, n, hd, hw, hr, hpo, hne, hpn⟩ := sorter_sort_edit_inv envS push title hE
      rw [h1] at hw
      rw [h2] at hr
      injection hw with hw
      injection hr with hr
      subst hw
      subst hr
      exact absurd rfl hne
  · cases hE : (Sorter.sort envS push title).isEdit with
    | false => rfl
    | true =>
      obtain ⟨o, n, hd, hw, hr, hpo, hne, hpn⟩ := sorter_sort_edit_inv envS push title hE
      rw [h1] at hw
      rw [h2] at hr
      injection hw with hw
      injection hr with hr
      subst hw
      subst hr
      exact absurd (hpn.trans hpo.symm) h3
  · cases hE : (Updater.sort envU push title).isEdit with
    | false => rfl
    | true =>
      obtain ⟨o, n, hd, hw, hr, hpo, hne, hpn⟩ := updater_sort_edit_inv envU push title hE
      rw [h1] at hw
      rw [h2] at hr
      injection hw with hw
      injection hr with hr
      subst hw
      subst hr
      exact absurd rfl hne
  · cases hE : (Updater.sort envU push title).isEdit with
    | false => rfl
    | true =>
      obtain ⟨o, n, hd, hw, hr, hpo, hne, hpn⟩ := updater_sort_edit_inv envU push title hE
      rw [h1] at hw
      rw [h2] at hr
      injection hw with hw
      injection hr with hr
      subst hw
      subst hr
      exact absurd (hpn.trans hpo.symm) h3

/-- C5, witness: with the wiki and repository returning the same text, both
reconcilers stop without an edit call. -/
theorem c5_noop_conditions_witness :
    (Sorter.sort ⟨some (str "x"), some (str "x"), none⟩ demoPush (str "T")).isEdit = false ∧
    (Updater.sort ⟨some (str "x"), some (str "x"), none⟩ demoPush (str "T")).isEdit = false := by
  have h := c5_noop_conditions ⟨some (str "x"), some (str "x"), none⟩
    ⟨some (str "x"), some (str "x"), none⟩ demoPush (str "T") (str "x") (str "x") (str "x")
  exact ⟨h.1 rfl rfl, h.2.2.1 rfl rfl⟩

/-- C6: the edit summary for a push with at least one (filtered) commit: the
author part joins the deduplicated author/committer names with `", "` when at
most 3, else takes the first name and "and N others" with N the remaining
count; the commit part is the single message for exactly one commit and
"<count> commits" otherwise; assembled as "<authors>: <commit> (<url>)". -/
theorem c6_edit_summary (p : GitHubPush) (h : p.commits ≠ []) :
    (parse_webhook p).authors.Nodup ∧
    (∀ x, x ∈ (parse_webhook p).authors ↔
      ∃ c ∈ p.commits, x = c.author.name ∨ x = c.committer.name) ∧
    into_edit_summary (parse_webhook p) =
      some ((if (parse_webhook p).authors.length ≤ 3
             then joinSep (str ", ") (parse_webhook p).authors
             else (parse_webhook p).authors.headI ++ str " and " ++
               natStr ((parse_webhook p).authors.length - 1) ++ str " others") ++
        str ": " ++
        (match p.commits with
         | [c] => c.message
         | cs => natStr cs.length ++ str " commits") ++
        str " (" ++ p.compare ++ str ")") := by
  refine ⟨collectNames_nodup [] p.commits List.nodup_nil, fun x => ?_, ?_⟩
  · have hm := mem_collectNames [] p.commits x
    simp only [List.not_mem_nil, false_or] at hm
    exact hm
  · have hne : (parse_webhook p).authors ≠ [] := collectNames_ne_nil _ _ (Or.inr h)
    unfold into_edit_summary
    cases ha : (parse_webhook p).authors with
    | nil => exact absurd ha hne
    | cons a rest =>
      simp only [List.headI, List.length_cons, Nat.add_sub_cancel]
      rw [show (parse_webhook p).commits = (match p.commits with
          | [c] => Commits.Single c.message
          | cs => Commits.Multiple cs.length) from rfl]
      cases hc : p.commits with
      | nil => exact absurd hc h
      | cons c1 cs =>
        cases cs with
        | nil => rfl
        | cons c2 cs2 => rfl

/-- C6, witness: five commits by the four distinct names A, B, C, D produce
"A and 3 others: 5 commits (u)". -/
theorem c6_edit_summary_witness :
    into_edit_summary (parse_webhook demoPush4) =
      some (str "A and 3 others: 5 commits (u)") := by
  have h := (c6_edit_summary demoPush4 (by decide)).2.2
  rw [h]
  decide

/-- A stream error anywhere makes the whole `search` call fail, provided no
earlier page panics the slice. -/
theorem searchGo_stream_error (f : Str → Option Config) (good : List PageInfo)
    (acc : RMap) (tail : List (Except Unit PageInfo))
    (h : ∀ p ∈ good, processPage f p ≠ none) :
    searchGo f acc (good.map Except.ok ++ Except.error () :: tail) = .failed := by
  induction good generalizing acc with
  | nil => rfl
  | cons p rest ih =>
    simp only [List.map_cons, List.cons_append, searchGo]
    cases hp : processPage f p with
    | none => exact absurd hp (h p (List.mem_cons_self _ _))
    | some es => exact ih _ (fun q hq => h q (List.mem_cons_of_mem _ hq))

/-- C7: a refresh iteration either installs the freshly built table wholesale
(successful enumeration) or leaves the previous table untouched (stream error
or panic), including a partial failure part-way through the page list. -/
theorem c7_refresh_atomicity (f : Str → Option Config) (table : RMap)
    (items : List (Except Unit PageInfo)) (good : List PageInfo)
    (tail : List (Except Unit PageInfo)) :
    (∀ m, searchModel f items = .ok m → taskStep f table items = m) ∧
    (searchModel f items = .failed → taskStep f table items = table) ∧
    (searchModel f items = .panicked → taskStep f table items = table) ∧
    ((∀ p ∈ good, processPage f p ≠ none) →
      taskStep f table (good.map Except.ok ++ Except.error () :: tail) = table) := by
  refine ⟨fun m hm => ?_, fun hm => ?_, fun hm => ?_, fun hnp => ?_⟩
  · unfold taskStep
    rw [hm]
    rfl
  · unfold taskStep
    rw [hm]
  · unfold taskStep
    rw [hm]
  · unfold taskStep searchModel
    rw [searchGo_stream_error f good [] tail hnp]

/-- C7, witness: an enumeration that returns one good page and then fails
leaves a concrete non-empty previous table exactly as it was. -/
theorem c7_refresh_atomicity_witness :
    taskStep demoFromJson [(demoSource, str "User:A/t.js")]
      ([demoPageB].map Except.ok ++ Except.error () :: []) =
      [(demoSource, str "User:A/t.js")] :=
  (c7_refresh_atomicity demoFromJson [(demoSource, str "User:A/t.js")] []
    [demoPageB] []).2.2.2 (by decide)

/-- C8, counterexample: both dispatch loops signal the refresh with an
awaiting `send(()).await` on the capacity-10 channel; with the queue full the
call suspends the dispatcher (`blocked`), it does not drop the signal and
proceed as the drop-if-full discipline (`trySendDrop`) would. -/
theorem c8_drop_if_full_counterexample :
    missSignal (List.replicate 10 ()) = SignalOutcome.blocked ∧
    trySendDrop 10 (List.replicate 10 ()) = SignalOutcome.dropped ∧
    decide (SignalOutcome.blocked = SignalOutcome.dropped) = false ∧
    decide (SignalOutcome.blocked = SignalOutcome.sent (List.replicate 10 ())) = false := by
  refine ⟨by decide, by decide, by decide, by decide⟩

/-- C8, amended: on a routing miss the dispatcher issues the refresh signal
with an awaiting bounded-channel send: while the channel is below its
capacity of 10 the signal is enqueued and processing continues, but on a full
channel the dispatcher suspends until the discovery task frees a slot, so
signalling can delay the processing of subsequent events. -/
theorem c8_signal_awaits (q : List Unit) :
    (q.length < 10 → missSignal q = .sent (q ++ [()])) ∧
    (10 ≤ q.length → missSignal q = .blocked) := by
  constructor
  · intro h
    unfold missSignal sendAwait
    rw [if_pos h]
  · intro h
    unfold missSignal sendAwait
    rw [if_neg (by omega)]

/-- C8, witness for the amended behaviour at an empty and at a full queue. -/
theorem c8_signal_awaits_witness :
    missSignal [] = .sent [()] ∧ missSignal (List.replicate 10 ()) = .blocked :=
  ⟨(c8_signal_awaits []).1 (by decide),
   (c8_signal_awaits (List.replicate 10 ())).2 (by decide)⟩

/-- C9: whenever reconciliation reaches summary construction the filtered
commit list is non-empty, so the deduplicated name list is non-empty and the
`unreachable!()` arm of `into_edit_summary` cannot fire: neither reconciler
ever panics. -/
theorem c9_reconcile_no_panic (env : SortEnv) (push : GitHubPush) (title : Str) :
    Sorter.sort env push title ≠ .panicked ∧
    Updater.sort env push title ≠ .panicked ∧
    (push.commits ≠ [] → (parse_webhook push).authors ≠ [] ∧
      into_edit_summary (parse_webhook push) ≠ none) :=
  ⟨sorter_sort_ne_panicked env push title, updater_sort_ne_panicked env push title,
   fun h => ⟨collectNames_ne_nil _ _ (Or.inr h), summary_some push h⟩⟩

/-- C10: every binding of a successfully built discovery table maps to a
target title lying inside the declaring page's userspace (the title's segment
before its first `'/'`, followed by `'/'`, is a prefix of the target); and a
page any of whose declared targets fails the userspace check contributes no
entries at all. -/
theorem c10_userspace_invariant (f : Str → Option Config)
    (items : List (Except Unit PageInfo)) (m : RMap) (k : SyncSource) (t : Str)
    (hok : searchModel f items = .ok m) (hl : lookupR m k = some t) :
    (∃ p, Except.ok p ∈ items ∧ (k, t) ∈ (processPage f p).getD [] ∧
      ∃ usr rest, splitOnce '/' p.title = some (usr, rest) ∧ (usr ++ ['/']) <+: t) ∧
    (∀ p cfg j usr rest, splitOnce '/' p.title = some (usr, rest) →
      p.contentmodel = str "javascript" → extractJson p.content = .ok j →
      f j = some cfg → (∃ sy ∈ cfg.syncs, usrCheck usr sy.target_title = false) →
      processPage f p = some []) := by
  constructor
  · rcases searchGo_ok_lookup f items [] m hok k t hl with hacc | ⟨p, hp, hm⟩
    · simp [lookupR] at hacc
    · obtain ⟨usr, rest, hsp, hchk⟩ := processPage_mem_usrCheck f p k t hm
      exact ⟨p, hp, hm, usr, rest, hsp, (usrCheck_iff usr t).mp hchk⟩
  · intro p cfg j usr rest h1 h2 h3 h4 h5
    unfold processPage
    rw [h1]
    simp only [h2, h3, h4]
    simp only [ne_eq, not_true_eq_false, if_false]
    have hnall : ¬(cfg.syncs.all (fun sy => usrCheck usr sy.target_title) = true) := by
      intro hall
      obtain ⟨sy, hsy, hfalse⟩ := h5
      have hh := List.all_eq_true.mp hall sy hsy
      rw [hfalse] at hh
      cases hh
    rw [if_neg hnall]

/-- C10, witness: the table built from page A alone maps the demo source to a
target inside `User:A`'s space, traced back to its declaring page. -/
theorem c10_userspace_invariant_witness :
    ∃ p, (Except.ok p : Except Unit PageInfo) ∈ [Except.ok demoPageA] ∧
      (demoSource, str "User:A/t.js") ∈ (processPage demoFromJson p).getD [] ∧
      ∃ usr rest, splitOnce '/' p.title = some (usr, rest) ∧
        (usr ++ ['/']) <+: str "User:A/t.js" :=
  (c10_userspace_invariant demoFromJson [Except.ok demoPageA]
    [(demoSource, str "User:A/t.js")] demoSource (str "User:A/t.js")
    (by decide) (by decide)).1

/-! ## Evaluation checks -/

example : rustTrim (str "  a b ") = str "a b" := by decide

example : splitOnChar '|' (str "a|b||c") = [str "a", str "b", str "", str "c"] := by decide

example : splitOnce '=' (str "a=b=c") = some (str "a", str "b=c") := by decide

example : words (str "  a bc  d ") = [str "a", str "bc", str "d"] := by decide

example : replaceAll (str "\x7b+path\x7d") (str "x.js") (str "u/\x7b+path\x7d?z") = str "u/x.js?z" := by decide

example : findIdxOf 'b' (str "abcb") = some 1 := by decide

example : rfindIdxOf 'b' (str "abcb") = some 3 := by decide

example : joinSep (str ", ") [str "a", str "b", str "c"] = str "a, b, c" := by decide

example : firstLine (str "ab\r\ncd") = some (str "ab") := by decide

example : stripSfx (str "\x7d\x7d") (str "a\x7d\x7d") = some (str "a") := by decide

example : extractJson (str "x \x7b\"a\": 1\x7d y") = .ok (str "\x7b\"a\": 1\x7d") := by decide

example : extractJson (str "no braces") = .skip := by decide

example : extractJson (str "\x7d oops \x7b") = .panicked := by decide

example : extractJson (str "\x7d\x7b") = .ok [] := by decide

example : usrCheck (str "User:A") (str "User:A/x.js") = true := by decide

example : usrCheck (str "User:A") (str "User:Ab/x.js") = false := by decide

example : missSignal (List.replicate 10 ()) = .blocked := by decide

example :
    Updater.parse_js_header (str "// \x7b\x7bWikipedia:USync | repo = https://github.com/fee1-dead/usync |ref = refs/heads/main |path=test.js\x7d\x7d") =
      some ⟨str "https://github.com/fee1-dead/usync", str "refs/heads/main", str "test.js"⟩ := by
  decide

example :
    Updater.parse_js_header (str "// \x7b\x7bWikipedia:USync |repo=a |ref=b\x7d\x7d") = none := by
  decide

example :
    Updater.parse_js_header (str "// \x7b\x7bWikipedia:USync |repo=a |x=q |repo=c |ref=b |path=p\x7d\x7d") =
      some ⟨str "c", str "b", str "p"⟩ := by
  decide

example :
    Sorter.parse_js_header (str "// [[User:0xDeadbeef/usync]]: r b f\nrest") =
      some ⟨str "r", str "b", str "f"⟩ := by
  decide

example : Sorter.parse_js_header (str "// [[User:0xDeadbeef/usync]]: r b f g") = none := by
  decide

example : processPage demoFromJson demoPageA = some [(demoSource, str "User:A/t.js")] := by decide

example : searchModel demoFromJson [.ok demoPageA, .ok demoPageB] =
    .ok [(demoSource, str "User:B/t.js")] := by decide

example : collectNames [] demoPush4.commits = [str "A", str "B", str "C", str "D"] := by decide

example : into_edit_summary (parse_webhook demoPush4) = some (str "A and 3 others: 5 commits (u)") := by decide
